import Mathlib

/-!
Verification of the dice-rolling widget.

The application root (App.tsx) owns four pieces of state: the dice count
`numDice`, the per-die displayed values `diceValues`, the `isRolling` flag
and the optional `total`.  We embed that state as a structure and each
operation of the source as a pure Lean function.  The browser's
`Math.random()` (a float in [0,1)) is modelled as a rational draw `r` with
`0 ≤ r < 1`, supplied explicitly to every operation that draws; timer-driven
sequencing becomes explicit iteration over a list of per-tick draw
families.
-/

/-- Constant MIN_DICE from App.tsx. -/
def MIN_DICE : Nat := 1

/-- Constant MAX_DICE from App.tsx. -/
def MAX_DICE : Nat := 8

/-- Constant ROLL_DURATION_MS from App.tsx. -/
def ROLL_DURATION_MS : Nat := 1000

/-- Constant SHUFFLE_INTERVAL_MS from App.tsx. -/
def SHUFFLE_INTERVAL_MS : Nat := 80

/-- The state owned by the App component: `numDice`, `diceValues`,
`isRolling` and `total` (TypeScript `number | null` becomes `Option Int`). -/
structure AppState where
  numDice : Nat
  diceValues : List Int
  isRolling : Bool
  total : Option Int
deriving DecidableEq, Repr

/-- The initial component state: `useState(1)`, `useState([1])`,
`useState(false)`, `useState(null)`. -/
def initialState : AppState :=
  { numDice := 1, diceValues := [1], isRolling := false, total := none }

/-- A draw of the host's pseudo-random source: `Math.random()` returns a
value in [0,1). -/
def validDraw (r : ℚ) : Prop := 0 ≤ r ∧ r < 1

instance (r : ℚ) : Decidable (validDraw r) := by
  unfold validDraw; infer_instance

/-- Embedding of `getRandomValue`: `Math.floor(Math.random() * 6) + 1`,
with the `Math.random()` result passed in as `r`. -/
def getRandomValue (r : ℚ) : Int := ⌊r * 6⌋ + 1

/-- Embedding of the clamp inside `handleAdjustDice`'s `setNumDice` updater:
`newValue < MIN_DICE` yields `MIN_DICE`, `newValue > MAX_DICE` yields
`MAX_DICE`, otherwise `newValue`. -/
def clampDice (newValue : Int) : Int :=
  if newValue < (MIN_DICE : Int) then (MIN_DICE : Int)
  else if newValue > (MAX_DICE : Int) then (MAX_DICE : Int)
  else newValue

/-- Embedding of the `setDiceValues` updater in the `useEffect` that syncs
`diceValues` with `numDice`: unchanged when the length already matches,
padded with entries equal to 1 when too short, truncated with `slice(0, numDice)`
when too long. -/
def syncDiceValues (prev : List Int) (numDice : Nat) : List Int :=
  if prev.length = numDice then prev
  else if prev.length < numDice then
    prev ++ List.replicate (numDice - prev.length) 1
  else
    prev.take numDice

/-- Embedding of `handleAdjustDice` combined with the `useEffect` keyed on
`[numDice]`: a no-op while rolling; otherwise the count is clamped into
[MIN_DICE, MAX_DICE].  The effect (resize `diceValues`, `setTotal(null)`)
runs exactly when the `numDice` value actually changed, which is React's
semantics for a `[numDice]` dependency combined with `setNumDice` bailing
out on an identical value. -/
def handleAdjustDice (increment : Int) (s : AppState) : AppState :=
  if s.isRolling then s
  else
    let newCount := (clampDice ((s.numDice : Int) + increment)).toNat
    if newCount = s.numDice then s
    else
      { s with
        numDice := newCount
        diceValues := syncDiceValues s.diceValues newCount
        total := none }

/-- Embedding of the start of `rollDice` (after the `isRolling` guard):
`setIsRolling(true); setTotal(null)`. -/
def startRoll (s : AppState) : AppState :=
  { s with isRolling := true, total := none }

/-- Embedding of one shuffle tick of `animate` (the `elapsed < ROLL_DURATION_MS`
branch): `setDiceValues(prev => prev.map(() => getRandomValue()))`, one fresh
draw per displayed die, supplied as the family `draws`. -/
def shuffleTick (draws : Nat → ℚ) (s : AppState) : AppState :=
  { s with
    diceValues :=
      (List.range s.diceValues.length).map (fun i => getRandomValue (draws i)) }

/-- Embedding of `Array(numDice).fill(0).map(() => getRandomValue())` in the
finish branch of `animate`: the final collection, one fresh draw per die. -/
def finalValues (draws : Nat → ℚ) (numDice : Nat) : List Int :=
  (List.range numDice).map (fun i => getRandomValue (draws i))

/-- Embedding of `finalValues.reduce((acc, val) => acc + val, 0)`. -/
def finalTotalOf (vs : List Int) : Int :=
  vs.foldl (fun acc val => acc + val) 0

/-- Embedding of the finish branch of `animate` (`elapsed ≥ ROLL_DURATION_MS`):
draws the final collection, computes the total, stores both, clears
`isRolling`, and computes `isWin = finalTotal >= numDice * 3` which is passed
to `speakResult`.  Returns the new state together with that spoken flag. -/
def rollFinish (draws : Nat → ℚ) (s : AppState) : AppState × Bool :=
  let fv := finalValues draws s.numDice
  let ft := finalTotalOf fv
  ({ s with diceValues := fv, total := some ft, isRolling := false },
   decide (ft ≥ (s.numDice : Int) * 3))

/-- Embedding of a whole `rollDice` run: a no-op returning no spoken verdict
when already rolling; otherwise `startRoll`, then the shuffle ticks that fire
while `elapsed < ROLL_DURATION_MS` (one per element of `tickDraws`), then the
finishing step with `finalDraws`.  The second component is the verdict passed
to `speakResult`, `none` when no verdict is spoken. -/
def rollDice (tickDraws : List (Nat → ℚ)) (finalDraws : Nat → ℚ)
    (s : AppState) : AppState × Option Bool :=
  if s.isRolling then (s, none)
  else
    let mid := tickDraws.foldl (fun st d => shuffleTick d st) (startRoll s)
    let fin := rollFinish finalDraws mid
    (fin.1, some fin.2)

/-- Embedding of the derived display flag
`isLucky = total !== null && total >= numDice * 3` in App.tsx. -/
def isLucky (s : AppState) : Bool :=
  match s.total with
  | none => false
  | some t => decide (t ≥ (s.numDice : Int) * 3)

/-- One user-visible transition of the App state: a count adjustment, the
start of a roll, one shuffle tick of a running roll, or the finish of a
running roll (ticks and finish only occur while `isRolling` is set, since
`animate` only runs during a roll). -/
inductive Step : AppState → AppState → Prop where
  | adjust (s : AppState) (d : Int) : Step s (handleAdjustDice d s)
  | start (s : AppState) (h : s.isRolling = false) : Step s (startRoll s)
  | tick (s : AppState) (draws : Nat → ℚ) (h : s.isRolling = true) :
      Step s (shuffleTick draws s)
  | finish (s : AppState) (draws : Nat → ℚ) (h : s.isRolling = true) :
      Step s (rollFinish draws s).1

/-- States reachable from the initial component state. -/
inductive Reachable : AppState → Prop where
  | init : Reachable initialState
  | step {s t : AppState} : Reachable s → Step s t → Reachable t

/-- Embedding of `getDots` in Die.tsx: dice value to the list of lit indexes
of the 3×3 grid (indexes 0–8). -/
def getDots (val : Nat) : List Nat :=
  match val with
  | 1 => [4]
  | 2 => [2, 6]
  | 3 => [0, 4, 8]
  | 4 => [0, 2, 6, 8]
  | 5 => [0, 2, 4, 6, 8]
  | 6 => [0, 2, 3, 5, 6, 8]
  | _ => []

/-- Embedding of the rendered face in Die.tsx: cell `i` of the nine grid
cells shows a dot exactly when `dots.includes(i)`. -/
def litPositions (val : Nat) : List Nat :=
  (List.range 9).filter (fun i => (getDots val).contains i)

/-- Modelled from the spec (§4.5: "standard die-face dot patterns"): the
standard dot pattern for each face on the 3×3 grid, as a set of positions
(center 4; corners 0, 2, 6, 8; side columns {0,3,6} and {2,5,8}).  The
two-pip face uses the anti-diagonal corner pair, one of the two standard
diagonal placements. -/
def standardFacePattern (val : Nat) : Finset Nat :=
  match val with
  | 1 => {4}
  | 2 => {2, 6}
  | 3 => {0, 4, 8}
  | 4 => {0, 2, 6, 8}
  | 5 => {0, 2, 4, 6, 8}
  | 6 => {0, 2, 3, 5, 6, 8}
  | _ => ∅

/-! ### Helper lemmas -/

/-- A draw in [0,1) yields a die value in [1,6]. -/
theorem getRandomValue_bounds {r : ℚ} (h : validDraw r) :
    1 ≤ getRandomValue r ∧ getRandomValue r ≤ 6 := by
  obtain ⟨h0, h1⟩ := h
  unfold getRandomValue
  have hlo : (0 : Int) ≤ ⌊r * 6⌋ := Int.floor_nonneg.mpr (by positivity)
  have hhi : ⌊r * 6⌋ < (6 : Int) := by
    rw [Int.floor_lt]
    push_cast
    linarith
  omega

/-- The clamp in `handleAdjustDice` is the min-max clamp into [1, 8]. -/
theorem clampDice_eq_min_max (x : Int) : clampDice x = min 8 (max 1 x) := by
  unfold clampDice MIN_DICE MAX_DICE
  split_ifs <;> omega

/-- The clamped count is at least 1. -/
theorem clampDice_pos (x : Int) : 1 ≤ clampDice x := by
  unfold clampDice MIN_DICE MAX_DICE
  split_ifs <;> omega

/-- Adjusting never touches the rolling flag. -/
theorem handleAdjustDice_isRolling (d : Int) (s : AppState) :
    (handleAdjustDice d s).isRolling = s.isRolling := by
  simp only [handleAdjustDice]
  split_ifs <;> rfl

/-- Shuffle ticks only touch `diceValues`: count, flag and total survive any
sequence of ticks. -/
theorem shuffleTicks_frame (l : List (Nat → ℚ)) (s : AppState) :
    (l.foldl (fun st d => shuffleTick d st) s).numDice = s.numDice ∧
    (l.foldl (fun st d => shuffleTick d st) s).isRolling = s.isRolling ∧
    (l.foldl (fun st d => shuffleTick d st) s).total = s.total := by
  induction l generalizing s with
  | nil => exact ⟨rfl, rfl, rfl⟩
  | cons hd tl ih => simpa [shuffleTick] using ih (shuffleTick hd s)

/-- Folding addition from 0 over a list is its sum. -/
theorem foldl_add_from (vs : List Int) (a : Int) :
    vs.foldl (fun acc val => acc + val) a = a + vs.sum := by
  induction vs generalizing a with
  | nil => simp
  | cons hd tl ih => simp [ih, add_assoc]

/-- The `reduce`-style total is the arithmetic sum of the list. -/
theorem finalTotalOf_eq_sum (vs : List Int) : finalTotalOf vs = vs.sum := by
  unfold finalTotalOf
  rw [foldl_add_from]
  simp

/-- The final collection has one entry per die. -/
theorem finalValues_length (draws : Nat → ℚ) (n : Nat) :
    (finalValues draws n).length = n := by
  simp [finalValues]

/-! ### Claim theorems -/

/-- C1: for a completed roll with dice count `n` and final total `t`, the
spoken verdict (the flag passed to `speakResult`) is win exactly when
`t ≥ n * 3`; the boundary case `t = n * 3` is a win; and the displayed
feedback `isLucky` of the resulting state equals the spoken verdict, so one
predicate drives both. -/
theorem roll_verdict_iff_threshold (draws : Nat → ℚ) (s : AppState) :
    ((rollFinish draws s).2 = true ↔
        finalTotalOf (finalValues draws s.numDice) ≥ (s.numDice : Int) * 3) ∧
    (finalTotalOf (finalValues draws s.numDice) = (s.numDice : Int) * 3 →
        (rollFinish draws s).2 = true) ∧
    isLucky (rollFinish draws s).1 = (rollFinish draws s).2 := by
  refine ⟨by simp [rollFinish], ?_, ?_⟩
  · intro h
    simp [rollFinish, h]
  · simp [rollFinish, isLucky]

/-- Witness for C1: one die, final draw 1/2, so the final value is 4,
the total is 4 ≥ 1 * 3, and both verdict and display are win. -/
theorem roll_verdict_iff_threshold_witness :
    (rollFinish (fun _ => (1:ℚ)/2) initialState).2 = true ∧
    isLucky (rollFinish (fun _ => (1:ℚ)/2) initialState).1 = true := by
  have h := roll_verdict_iff_threshold (fun _ => (1:ℚ)/2) initialState
  have hge : finalTotalOf (finalValues (fun _ => (1:ℚ)/2) initialState.numDice)
      ≥ ((initialState.numDice : Int)) * 3 := by
    norm_num [finalTotalOf, finalValues, initialState, getRandomValue,
      List.range_succ]
  exact ⟨h.1.mpr hge, by rw [h.2.2, h.1.mpr hge]⟩

/-- C2: at roll completion the stored total is the exact arithmetic sum of
the final collection, which is one fresh draw per die; the right-hand sides
mention neither `tickDraws` nor the prior `diceValues` of `s`, so the
intermediate shuffle-tick values never contribute to the total. -/
theorem total_is_sum_of_final_collection (tickDraws : List (Nat → ℚ))
    (finalDraws : Nat → ℚ) (s : AppState) (h : s.isRolling = false) :
    (rollDice tickDraws finalDraws s).1.total
        = some ((finalValues finalDraws s.numDice).sum) ∧
    (rollDice tickDraws finalDraws s).1.diceValues
        = finalValues finalDraws s.numDice ∧
    (finalValues finalDraws s.numDice).length = s.numDice := by
  have hmid := shuffleTicks_frame tickDraws (startRoll s)
  simp only [rollDice, h, Bool.false_eq_true, if_false]
  simp only [rollFinish, finalTotalOf_eq_sum]
  rw [hmid.1]
  exact ⟨rfl, rfl, finalValues_length _ _⟩

/-- Witness for C2: one die, one shuffle tick with draw 0, final draw 1/2;
the total is 4, the sum of the final collection [4]. -/
theorem total_is_sum_of_final_collection_witness :
    (rollDice [fun _ => 0] (fun _ => (1:ℚ)/2) initialState).1.total
        = some ((finalValues (fun _ => (1:ℚ)/2) initialState.numDice).sum) := by
  exact (total_is_sum_of_final_collection [fun _ => 0] (fun _ => (1:ℚ)/2)
    initialState rfl).1

/-- C3: for every dice count n in [1,8] and every family of draws in [0,1),
the final collection has length exactly n and every element is in [1,6]. -/
theorem final_collection_in_range (n : Nat) (_hn1 : 1 ≤ n) (_hn8 : n ≤ 8)
    (draws : Nat → ℚ) (hd : ∀ i, validDraw (draws i)) :
    (finalValues draws n).length = n ∧
    ∀ v ∈ finalValues draws n, 1 ≤ v ∧ v ≤ 6 := by
  refine ⟨finalValues_length draws n, ?_⟩
  intro v hv
  simp only [finalValues, List.mem_map] at hv
  obtain ⟨i, _, rfl⟩ := hv
  exact getRandomValue_bounds (hd i)

/-- Witness for C3: two dice, all draws 1/2. -/
theorem final_collection_in_range_witness :
    (finalValues (fun _ => (1:ℚ)/2) 2).length = 2 ∧
    ∀ v ∈ finalValues (fun _ => (1:ℚ)/2) 2, 1 ≤ v ∧ v ≤ 6 := by
  exact final_collection_in_range 2 (by norm_num) (by norm_num) _
    (fun i => by norm_num [validDraw])

/-- C4: adjusting while not rolling clamps the resulting count to [1,8]:
the new count is min 8 (max 1 (c + delta)). -/
theorem adjust_clamps_count (d : Int) (s : AppState) (h : s.isRolling = false) :
    ((handleAdjustDice d s).numDice : Int)
        = min 8 (max 1 ((s.numDice : Int) + d)) := by
  have hpos := clampDice_pos ((s.numDice : Int) + d)
  have heq := clampDice_eq_min_max ((s.numDice : Int) + d)
  simp only [handleAdjustDice, h, Bool.false_eq_true, if_false]
  split_ifs with hc
  · omega
  · dsimp only
    omega

/-- Witness for C4: adjust(+1) at count 8 stays at 8 = min 8 (max 1 9). -/
theorem adjust_clamps_count_witness :
    ((handleAdjustDice 1
        ⟨8, [1, 1, 1, 1, 1, 1, 1, 1], false, some 30⟩).numDice : Int)
      = min 8 (max 1 ((((8 : Nat) : Int)) + 1)) :=
  adjust_clamps_count 1 ⟨8, [1, 1, 1, 1, 1, 1, 1, 1], false, some 30⟩ rfl

/-- C5: growing the collection from length k to n appends (n − k) entries
equal to 1 after the preserved prefix; shrinking keeps exactly the first n
existing values. -/
theorem sync_resizes_collection (prev : List Int) (n : Nat) :
    (prev.length < n →
        syncDiceValues prev n = prev ++ List.replicate (n - prev.length) 1) ∧
    (n < prev.length → syncDiceValues prev n = prev.take n) := by
  unfold syncDiceValues
  constructor
  · intro h
    rw [if_neg (by omega), if_pos h]
  · intro h
    rw [if_neg (by omega), if_neg (by omega)]

/-- Witness for C5: growing [2,3] to 4 appends two ones; shrinking [5,6,7]
to 2 keeps the first two values. -/
theorem sync_resizes_collection_witness :
    syncDiceValues [2, 3] 4 = [2, 3] ++ List.replicate 2 1 ∧
    syncDiceValues [5, 6, 7] 2 = [5, 6, 7].take 2 :=
  ⟨(sync_resizes_collection [2, 3] 4).1 (by norm_num),
   (sync_resizes_collection [5, 6, 7] 2).2 (by norm_num)⟩

/-- C6: any adjust transition that actually changes the count value leaves
the total absent, regardless of its prior value. -/
theorem count_change_clears_total (d : Int) (s : AppState)
    (h : s.isRolling = false)
    (hchg : (handleAdjustDice d s).numDice ≠ s.numDice) :
    (handleAdjustDice d s).total = none := by
  simp only [handleAdjustDice, h, Bool.false_eq_true, if_false] at *
  split_ifs at * with hc
  · exact absurd rfl hchg
  · rfl

/-- Witness for C6: count 2 with a stale total 7; adjust(+1) gives count 3
and clears the total. -/
theorem count_change_clears_total_witness :
    (handleAdjustDice 1 ⟨2, [1, 1], false, some 7⟩).total = none :=
  count_change_clears_total 1 ⟨2, [1, 1], false, some 7⟩ rfl (by decide)

/-- C7: while the rolling flag is set, both the count adjustment and the
roll trigger leave the whole state unchanged, and the roll trigger speaks
no verdict. -/
theorem rolling_blocks_adjust_and_roll (d : Int) (tickDraws : List (Nat → ℚ))
    (finalDraws : Nat → ℚ) (s : AppState) (h : s.isRolling = true) :
    handleAdjustDice d s = s ∧ rollDice tickDraws finalDraws s = (s, none) := by
  constructor
  · simp [handleAdjustDice, h]
  · simp [rollDice, h]

/-- Witness for C7 at a concrete rolling state. -/
theorem rolling_blocks_adjust_and_roll_witness :
    handleAdjustDice 1 ⟨1, [1], true, none⟩ = ⟨1, [1], true, none⟩ ∧
    rollDice [] (fun _ => 0) ⟨1, [1], true, none⟩
      = (⟨1, [1], true, none⟩, none) :=
  rolling_blocks_adjust_and_roll 1 [] (fun _ => 0) ⟨1, [1], true, none⟩ rfl

/-- Reachability invariant: in every reachable state, the total is absent
whenever the rolling flag is set. -/
theorem reachable_rolling_total_none {s : AppState} (hr : Reachable s) :
    s.isRolling = true → s.total = none := by
  induction hr with
  | init => intro h; exact absurd h (by decide)
  | step hr hst ih =>
    cases hst with
    | adjust d =>
      intro h
      rw [handleAdjustDice_isRolling] at h
      simp only [handleAdjustDice, h, if_true]
      exact ih h
    | start h0 => intro _; rfl
    | tick draws h0 => intro _; exact ih h0
    | finish draws h0 =>
      intro h
      simp [rollFinish] at h

/-- C8: in every reachable state the total is never present while rolling;
starting a roll sets the flag and clears the total in the same transition;
and the completion transition that makes the total present simultaneously
clears the flag. -/
theorem total_never_present_while_rolling :
    (∀ s : AppState, Reachable s → s.isRolling = true → s.total = none) ∧
    (∀ s : AppState, (startRoll s).isRolling = true ∧ (startRoll s).total = none) ∧
    (∀ (draws : Nat → ℚ) (s : AppState),
        (rollFinish draws s).1.isRolling = false ∧
        (rollFinish draws s).1.total
          = some (finalTotalOf (finalValues draws s.numDice))) :=
  ⟨fun _ hr => reachable_rolling_total_none hr,
   fun _ => ⟨rfl, rfl⟩,
   fun _ _ => ⟨rfl, rfl⟩⟩

/-- Witness for C8 at the reachable state reached by starting a roll from
the initial state. -/
theorem total_never_present_while_rolling_witness :
    (startRoll initialState).total = none :=
  total_never_present_while_rolling.1 (startRoll initialState)
    (Reachable.step Reachable.init (Step.start initialState rfl)) rfl

/-- C9: an adjust call that does not actually change the count value leaves
the total and the dice collection unchanged. -/
theorem adjust_without_change_keeps_rest (d : Int) (s : AppState)
    (h : s.isRolling = false)
    (hsame : (handleAdjustDice d s).numDice = s.numDice) :
    (handleAdjustDice d s).total = s.total ∧
    (handleAdjustDice d s).diceValues = s.diceValues := by
  simp only [handleAdjustDice, h, Bool.false_eq_true, if_false] at *
  split_ifs at * with hc
  · exact ⟨rfl, rfl⟩
  · exact absurd hsame hc

/-- Witness for C9: adjust(+1) at count 8 keeps the total and collection. -/
theorem adjust_without_change_keeps_rest_witness :
    (handleAdjustDice 1
        ⟨8, [1, 1, 1, 1, 1, 1, 1, 1], false, some 30⟩).total = some 30 ∧
    (handleAdjustDice 1
        ⟨8, [1, 1, 1, 1, 1, 1, 1, 1], false, some 30⟩).diceValues
      = [1, 1, 1, 1, 1, 1, 1, 1] :=
  adjust_without_change_keeps_rest 1
    ⟨8, [1, 1, 1, 1, 1, 1, 1, 1], false, some 30⟩ rfl (by decide)

/-- C10: `getDots` maps every value v in [1,6] to the standard dot pattern
for v as a set of 3×3 grid positions, with exactly v positions, no
duplicates, and exactly v lit grid cells in the rendered face; being a pure
function, the same value always yields the same list. -/
theorem getDots_standard_face (v : Nat) (h1 : 1 ≤ v) (h6 : v ≤ 6) :
    (getDots v).length = v ∧ (getDots v).Nodup ∧
    (litPositions v).length = v ∧
    (getDots v).toFinset = standardFacePattern v := by
  interval_cases v <;> exact ⟨rfl, by decide, by decide, by decide⟩

/-- Witness for C10 at value 5. -/
theorem getDots_standard_face_witness :
    (getDots 5).length = 5 ∧ (getDots 5).Nodup ∧
    (litPositions 5).length = 5 ∧
    (getDots 5).toFinset = standardFacePattern 5 :=
  getDots_standard_face 5 (by norm_num) (by norm_num)
